import Mathlib

/-!
Verification of the Tcl list-encoding module (`src/tcl.ts`).

A JavaScript string is modelled as a `List Nat` of Unicode code points, the
sequence produced by `Array.from(s)` / `for (const c of s)` iteration: each
element is a code point in `[0, 0x10FFFF]`, where a lone unpaired surrogate
half appears as a single element in `[0xD800, 0xDFFF]` and a code point
`≥ 0x10000` corresponds to a two-code-unit (astral) character whose
JavaScript string representation has `length > 1`.
-/

namespace Tcl

/-- Function `isUnprintableAscii` from `src/tcl.ts`: `charCode < 32 || charCode == 127`.
In the source it receives `char.charCodeAt(0)`; it is only ever consulted on
single-code-unit characters (code point `< 0x10000`), where `charCodeAt(0)`
is the code point itself. -/
def isUnprintableAscii (c : Nat) : Bool :=
  c < 32 || c == 127

/-- A lone UTF-16 surrogate half, `0xD800 ≤ c < 0xE000`. -/
def isLoneSurrogate (c : Nat) : Bool :=
  0xD800 ≤ c && c < 0xE000

/-- One lowercase hexadecimal digit character code (`0`-`9`, `a`-`f`). -/
def hexDigit (n : Nat) : Nat :=
  if n < 10 then 48 + n else 87 + n

/-- Two-digit lowercase hex rendering of a byte, as produced by
`c.toString(16).padStart(2, "0")` for `c < 256`.  The source only reaches
this rendering for characters with `isUnprintableAscii`, i.e. `c < 32` or
`c = 127`, where the two formulations agree. -/
def hexByte (c : Nat) : List Nat :=
  if c < 16 then [48, hexDigit c] else [hexDigit (c / 16), hexDigit (c % 16)]

/-- The classification scan of `tclQuote` (`src/tcl.ts` lines 91-142).
Arguments: remaining characters, `requireBraceQuote` so far, `braceCount`
so far.  Returns `(requireSlashQuote, requireBraceQuote, braceCount)` at the
moment the loop ends, which is early (`break`) as soon as
`requireSlashQuote` is set.  A backslash that is not the last character
consumes the following character (`i++`). -/
def classify : List Nat → Bool → Nat → Bool × Bool × Nat
  | [], brace, count => (false, brace, count)
  | c :: rest, brace, count =>
    if 0x10000 ≤ c then
      -- `character.length > 1`: astral code point, safe as-is.
      classify rest brace count
    else if isUnprintableAscii c then
      (true, brace, count)
    else if c == 32 || c == 34 then
      classify rest true count
    else if c == 92 then
      match rest with
      | [] => (true, brace, count)
      | _ :: rest2 => classify rest2 true count
    else if c == 123 then
      classify rest true (count + 1)
    else if c == 125 then
      if count == 0 then (true, true, count) else classify rest true (count - 1)
    else
      classify rest brace count

/-- The per-character emission of the backslash-escaping pass of `tclQuote`
(`src/tcl.ts` lines 151-216), in the source's `switch` order. -/
def slashQuoteChar (c : Nat) : List Nat :=
  if c == 8 then [92, 98]
  else if c == 12 then [92, 102]
  else if c == 10 then [92, 110]
  else if c == 13 then [92, 114]
  else if c == 9 then [92, 116]
  else if c == 11 then [92, 118]
  else if c == 32 || c == 34 || c == 92 || c == 123 || c == 125 then [92, c]
  else if isUnprintableAscii c then 92 :: 120 :: hexByte c
  else [c]

/-- Function `tclQuote` from `src/tcl.ts`: empty string becomes `{}`; otherwise the
classification scan decides between the backslash-escaping pass (also forced
when the final `braceCount` is nonzero), brace wrapping, and returning the
input unchanged. -/
def tclQuote (s : List Nat) : List Nat :=
  if s = [] then [123, 125]
  else
    match classify s false 0 with
    | (requireSlashQuote, requireBraceQuote, braceCount) =>
      if requireSlashQuote || !(braceCount == 0) then
        (s.map slashQuoteChar).flatten
      else if requireBraceQuote then
        123 :: (s ++ [125])
      else
        s

/-- Type `TclListable` from `src/tcl.ts`:
`string | number | boolean | Iterable<TclListable>`.
A number is modelled by its `toString()` rendering; JavaScript's
`Number.prototype.toString` never returns the empty string, so the rendering
is carried as a first code point plus the remaining ones. -/
inductive TclListable where
  | str : List Nat → TclListable
  | num : Nat → List Nat → TclListable
  | bool : Bool → TclListable
  | list : List TclListable → TclListable

mutual

/-- Function `encodeTclListElement` from `src/tcl.ts`: strings through `tclQuote`,
numbers via their `toString()` rendering, `true`/`false` as `"1"`/`"0"`,
nested iterables via `tclQuote (tclList ...)`. -/
def encodeTclListElement : TclListable → List Nat
  | .str s => tclQuote s
  | .num first rest => first :: rest
  | .bool true => [49]
  | .bool false => [48]
  | .list l => tclQuote (tclListAux [] l)

/-- The accumulator loop of `tclList` (`src/tcl.ts` lines 44-51): a space is
appended before an element exactly when the result so far is nonempty. -/
def tclListAux : List Nat → List TclListable → List Nat
  | result, [] => result
  | result, item :: rest =>
    tclListAux ((if result = [] then result else result ++ [32])
      ++ encodeTclListElement item) rest

end

/-- Function `tclList` from `src/tcl.ts`: run the accumulator loop from the empty
string. -/
def tclList (l : List TclListable) : List Nat :=
  tclListAux [] l

/-- Plain content in the sense of the spec's quoting properties: not a
control character, not a double quote, not a backslash and not a brace.
The space character is allowed. -/
def isPlainOrSpace (c : Nat) : Bool :=
  decide (¬ c < 32 ∧ c ≠ 127 ∧ c ≠ 34 ∧ c ≠ 92 ∧ c ≠ 123 ∧ c ≠ 125)

/-- Spec-side brace tracking: the running depth of braces that are not
protected by a preceding backslash, scanning left to right.  Returns `none`
when a close brace is met at depth `0`, and the final depth otherwise.  A
trailing backslash protects nothing. -/
def braceScan : List Nat → Nat → Option Nat
  | [], n => some n
  | c :: rest, n =>
    if c == 92 then
      match rest with
      | [] => some n
      | _ :: rest2 => braceScan rest2 n
    else if c == 123 then braceScan rest (n + 1)
    else if c == 125 then (if n == 0 then none else braceScan rest (n - 1))
    else braceScan rest n

/-- Length of the maximal all-backslash suffix of a string. -/
def trailingBackslashes : List Nat → Nat
  | [] => 0
  | c :: rest =>
    if trailingBackslashes rest == rest.length && c == 92 then
      trailingBackslashes rest + 1
    else
      trailingBackslashes rest

theorem classify_plain : ∀ (s : List Nat) (b : Bool) (n : Nat),
    s.all isPlainOrSpace = true →
    classify s b n = (false, b || s.any (fun c => c == 32), n) := by
  intro s b n
  induction s, b, n using classify.induct with
  | case1 b n =>
    intro _
    simp [classify]
  | case2 c rest b n h1 ih =>
    intro h
    simp only [List.all_cons, Bool.and_eq_true] at h
    have hc32 : (c == 32) = false := by simp only [beq_eq_false_iff_ne]; omega
    rw [classify.eq_def]
    simp [h1, ih h.2, hc32]
  | case3 c rest b n h1 h2 =>
    intro h
    exfalso
    simp only [List.all_cons, Bool.and_eq_true] at h
    simp [isPlainOrSpace, isUnprintableAscii] at h2 h
    omega
  | case4 c rest b n h1 h2 h3 ih =>
    intro h
    simp only [List.all_cons, Bool.and_eq_true] at h
    have hc : c = 32 := by
      have := h.1
      simp [isPlainOrSpace] at this
      simp only [Bool.or_eq_true, beq_iff_eq] at h3
      omega
    subst hc
    rw [classify.eq_def]
    simp [h2, ih h.2]
  | case5 c b n h1 h2 h3 h4 =>
    intro h
    exfalso
    simp only [List.all_cons, Bool.and_eq_true] at h
    simp only [beq_iff_eq] at h4
    simp [isPlainOrSpace] at h
    omega
  | case6 c b n h1 h2 h3 h4 head rest2 ih =>
    intro h
    exfalso
    simp only [List.all_cons, Bool.and_eq_true] at h
    simp only [beq_iff_eq] at h4
    simp [isPlainOrSpace] at h
    omega
  | case7 c rest b n h1 h2 h3 h4 h5 ih =>
    intro h
    exfalso
    simp only [List.all_cons, Bool.and_eq_true] at h
    simp only [beq_iff_eq] at h5
    simp [isPlainOrSpace] at h
    omega
  | case8 c rest b n h1 h2 h3 h4 h5 h6 h7 =>
    intro h
    exfalso
    simp only [List.all_cons, Bool.and_eq_true] at h
    simp only [beq_iff_eq] at h6
    simp [isPlainOrSpace] at h
    omega
  | case9 c rest b n h1 h2 h3 h4 h5 h6 h7 ih =>
    intro h
    exfalso
    simp only [List.all_cons, Bool.and_eq_true] at h
    simp only [beq_iff_eq] at h6
    simp [isPlainOrSpace] at h
    omega
  | case10 c rest b n h1 h2 h3 h4 h5 h6 ih =>
    intro h
    simp only [List.all_cons, Bool.and_eq_true] at h
    have hc32 : (c == 32) = false := by
      simp only [Bool.or_eq_true] at h3
      simp only [beq_eq_false_iff_ne]
      intro hc
      exact h3 (Or.inl (by simp [hc]))
    have hc34 : (c == 34) = false := by
      simp only [beq_eq_false_iff_ne]
      intro hc
      exact h3 (by simp [hc])
    rw [classify.eq_def]
    simp [h1, h2, h4, h5, h6, ih h.2, hc32, hc34]

theorem tclQuote_plain (s : List Nat) (hne : s ≠ [])
    (h : s.all (fun c => isPlainOrSpace c && !(c == 32)) = true) :
    tclQuote s = s := by
  have hps : s.all isPlainOrSpace = true := by
    simp only [List.all_eq_true] at h ⊢
    intro c hc
    have hcand := h c hc
    simp only [Bool.and_eq_true] at hcand
    exact hcand.1
  have hany : s.any (fun c => c == 32) = false := by
    simp only [List.any_eq_false]
    intro c hc
    simp only [List.all_eq_true] at h
    have hcand := h c hc
    simp only [Bool.and_eq_true] at hcand
    simpa using hcand.2
  simp [tclQuote, hne, classify_plain s false 0 hps, hany]

/-- C1 counterexample: the claim says every string with balanced braces and
no control characters, space, double quote or backslash is returned
unchanged by `quoteElement`.  Both the empty string (returned as the literal
open-close brace pair) and the two-character string of an open and a close
brace (which is brace-wrapped) satisfy those hypotheses and are changed. -/
theorem claim1_counterexample :
    (braceScan [] 0 = some 0 ∧
      ([] : List Nat).all
        (fun c => !(isUnprintableAscii c) && !(c == 32) && !(c == 34) && !(c == 92)) = true ∧
      tclQuote [] ≠ []) ∧
    (braceScan [123, 125] 0 = some 0 ∧
      ([123, 125] : List Nat).all
        (fun c => !(isUnprintableAscii c) && !(c == 32) && !(c == 34) && !(c == 92)) = true ∧
      tclQuote [123, 125] ≠ [123, 125]) := by
  decide

/-- C1 (amended): for every nonempty string containing no control
characters, no space, no double quote, no backslash and no braces,
`tclQuote` returns the string unchanged. -/
theorem claim1_theorem (s : List Nat) (hne : s ≠ [])
    (h : s.all (fun c => isPlainOrSpace c && !(c == 32)) = true) :
    tclQuote s = s :=
  tclQuote_plain s hne h

/-- C1 witness: a concrete plain string (a letter, an astral emoji code
point, and a lone surrogate half) passes through unchanged. -/
theorem claim1_witness :
    ([97, 128512, 55296] : List Nat) ≠ [] ∧
    ([97, 128512, 55296] : List Nat).all (fun c => isPlainOrSpace c && !(c == 32)) = true ∧
    tclQuote [97, 128512, 55296] = [97, 128512, 55296] :=
  ⟨by decide, by decide, claim1_theorem [97, 128512, 55296] (by decide) (by decide)⟩

/-- C6: every string containing at least one space and otherwise only plain
content (no control characters, no double quote, no backslash, no braces) is
returned as the original string wrapped in one pair of braces, with no
per-character changes. -/
theorem claim6_theorem (s : List Nat)
    (hany : s.any (fun c => c == 32) = true)
    (hall : s.all isPlainOrSpace = true) :
    tclQuote s = 123 :: (s ++ [125]) := by
  have hne : s ≠ [] := by rintro rfl; simp at hany
  simp [tclQuote, hne, classify_plain s false 0 hall, hany]

/-- C6 witness: the string "a b" becomes "{a b}". -/
theorem claim6_witness :
    ([97, 32, 98] : List Nat).any (fun c => c == 32) = true ∧
    ([97, 32, 98] : List Nat).all isPlainOrSpace = true ∧
    tclQuote [97, 32, 98] = 123 :: ([97, 32, 98] ++ [125]) :=
  ⟨by decide, by decide, claim6_theorem [97, 32, 98] (by decide) (by decide)⟩

/-- C7: quoting the empty string yields exactly the two-character string of
an open brace followed by a close brace. -/
theorem claim7_theorem : tclQuote [] = [123, 125] :=
  rfl

/-- C9: the quoter is total over the model by construction, and lone
unpaired surrogate halves are treated as printable pass-through characters:
the classification scan skips them without effect, the backslash-escaping
pass emits them unchanged, and a nonempty string made of them is returned
unchanged. -/
theorem claim9_theorem :
    (∀ (c : Nat) (rest : List Nat) (b : Bool) (n : Nat), isLoneSurrogate c = true →
      classify (c :: rest) b n = classify rest b n) ∧
    (∀ c : Nat, isLoneSurrogate c = true → slashQuoteChar c = [c]) ∧
    (∀ s : List Nat, s ≠ [] → s.all isLoneSurrogate = true → tclQuote s = s) := by
  refine ⟨?_, ?_, ?_⟩
  · intro c rest b n h
    simp only [isLoneSurrogate, Bool.and_eq_true, decide_eq_true_eq] at h
    have h1 : ¬ 65536 ≤ c := by omega
    have h2 : isUnprintableAscii c = false := by
      simp only [isUnprintableAscii, Bool.or_eq_false_iff, beq_eq_false_iff_ne,
        decide_eq_false_iff_not]
      omega
    have h3 : (c == 32 || c == 34) = false := by
      simp only [Bool.or_eq_false_iff, beq_eq_false_iff_ne]
      omega
    have h4 : (c == 92) = false := by simp only [beq_eq_false_iff_ne]; omega
    have h5 : (c == 123) = false := by simp only [beq_eq_false_iff_ne]; omega
    have h6 : (c == 125) = false := by simp only [beq_eq_false_iff_ne]; omega
    rw [classify.eq_def]
    simp [h1, h2, h3, h4, h5, h6]
  · intro c h
    simp only [isLoneSurrogate, Bool.and_eq_true, decide_eq_true_eq] at h
    have hb : ∀ k : Nat, k < 55296 → (c == k) = false := by
      intro k hk
      simp only [beq_eq_false_iff_ne]
      omega
    have h2 : isUnprintableAscii c = false := by
      simp only [isUnprintableAscii, Bool.or_eq_false_iff, beq_eq_false_iff_ne,
        decide_eq_false_iff_not]
      omega
    simp [slashQuoteChar, hb, h2]
  · intro s hne hall
    apply tclQuote_plain s hne
    simp only [List.all_eq_true] at hall ⊢
    intro c hc
    have hcs := hall c hc
    simp only [isLoneSurrogate, Bool.and_eq_true, decide_eq_true_eq] at hcs
    simp only [isPlainOrSpace, Bool.and_eq_true, decide_eq_true_eq, Bool.not_eq_true',
      beq_eq_false_iff_ne]
    omega

/-- C9 witness: the lone high surrogate half `0xD800` is skipped by the
scan, passed through by the escaping pass, and a string of it alone is
returned unchanged. -/
theorem claim9_witness :
    isLoneSurrogate 55296 = true ∧
    classify [55296, 97] false 0 = classify [97] false 0 ∧
    slashQuoteChar 55296 = [55296] ∧
    tclQuote [55296] = [55296] :=
  ⟨by decide, claim9_theorem.1 55296 [97] false 0 (by decide),
    claim9_theorem.2.1 55296 (by decide),
    claim9_theorem.2.2 [55296] (by decide) (by decide)⟩

/-- Reference escape string for the concatenation of the 128 ASCII code
points 0 through 127, written out code point by code point.  It matches the
`expectedResult` literal of the "all ASCII chars" case in `tclUnitTest`
(`src/tcl.ts` lines 250-255): control characters become a backslash-x pair
of lowercase hex digits or the named escapes for backspace, tab, newline,
vertical tab, form feed and carriage return; space, double quote, backslash
and both braces get a single backslash prefix; every other ASCII character
is unchanged. -/
def asciiReferenceEscape : List Nat := [
  92, 120, 48, 48, 92, 120, 48, 49, 92, 120, 48, 50, 92, 120, 48, 51, 92, 120,
  48, 52, 92, 120, 48, 53, 92, 120, 48, 54, 92, 120, 48, 55, 92, 98, 92, 116,
  92, 110, 92, 118, 92, 102, 92, 114, 92, 120, 48, 101, 92, 120, 48, 102, 92,
  120, 49, 48, 92, 120, 49, 49, 92, 120, 49, 50, 92, 120, 49, 51, 92, 120, 49,
  52, 92, 120, 49, 53, 92, 120, 49, 54, 92, 120, 49, 55, 92, 120, 49, 56, 92,
  120, 49, 57, 92, 120, 49, 97, 92, 120, 49, 98, 92, 120, 49, 99, 92, 120, 49,
  100, 92, 120, 49, 101, 92, 120, 49, 102, 92, 32, 33, 92, 34, 35, 36, 37, 38,
  39, 40, 41, 42, 43, 44, 45, 46, 47, 48, 49, 50, 51, 52, 53, 54, 55, 56, 57,
  58, 59, 60, 61, 62, 63, 64, 65, 66, 67, 68, 69, 70, 71, 72, 73, 74, 75, 76,
  77, 78, 79, 80, 81, 82, 83, 84, 85, 86, 87, 88, 89, 90, 91, 92, 92, 93, 94,
  95, 96, 97, 98, 99, 100, 101, 102, 103, 104, 105, 106, 107, 108, 109, 110,
  111, 112, 113, 114, 115, 116, 117, 118, 119, 120, 121, 122, 92, 123, 124,
  92, 125, 126, 92, 120, 55, 102]

set_option maxRecDepth 40000

/-- C3: quoting the single string formed by the 128 ASCII code points 0
through 127 in order yields exactly the fixed reference escape string. -/
theorem claim3_theorem : tclQuote (List.range 128) = asciiReferenceEscape := by
  decide

theorem trailingBackslashes_le : ∀ s : List Nat, trailingBackslashes s ≤ s.length := by
  intro s
  induction s with
  | nil => simp [trailingBackslashes]
  | cons c rest ih =>
    rw [trailingBackslashes]
    split
    · simp only [List.length_cons]
      omega
    · simp only [List.length_cons]
      omega

theorem trailingBackslashes_cons_ne (c : Nat) (rest : List Nat) (h : c ≠ 92) :
    trailingBackslashes (c :: rest) = trailingBackslashes rest := by
  rw [trailingBackslashes]
  have hc : (c == 92) = false := by simpa using h
  simp [hc]

theorem trailingBackslashes_cons_cons (d : Nat) (rest : List Nat) :
    trailingBackslashes (92 :: d :: rest) % 2 = trailingBackslashes rest % 2 := by
  have hle := trailingBackslashes_le rest
  by_cases h1 : trailingBackslashes rest = rest.length
  · by_cases h2 : d = 92
    · subst h2
      have e1 : trailingBackslashes (92 :: rest) = trailingBackslashes rest + 1 := by
        rw [trailingBackslashes]
        simp [h1]
      have e2 : trailingBackslashes (92 :: 92 :: rest) = trailingBackslashes rest + 2 := by
        rw [trailingBackslashes, e1]
        simp [h1]
      rw [e2]
      omega
    · have hd : (d == 92) = false := by simpa using h2
      have e1 : trailingBackslashes (d :: rest) = trailingBackslashes rest := by
        rw [trailingBackslashes]
        simp [hd]
      have e2 : trailingBackslashes (92 :: d :: rest) = trailingBackslashes rest := by
        rw [trailingBackslashes, e1]
        have hcond : (trailingBackslashes rest == (d :: rest).length) = false := by
          simp only [List.length_cons, beq_eq_false_iff_ne]
          omega
        simp [hcond]
        omega
      rw [e2]
  · have hcond0 : (trailingBackslashes rest == rest.length) = false := by
      simpa using h1
    have e1 : trailingBackslashes (d :: rest) = trailingBackslashes rest := by
      rw [trailingBackslashes]
      simp [hcond0]
    have e2 : trailingBackslashes (92 :: d :: rest) = trailingBackslashes rest := by
      rw [trailingBackslashes, e1]
      have hcond : (trailingBackslashes rest == (d :: rest).length) = false := by
        simp only [List.length_cons, beq_eq_false_iff_ne]
        omega
      simp [hcond]
      omega
    rw [e2]

theorem classify_odd_trailing : ∀ (s : List Nat) (b : Bool) (n : Nat),
    trailingBackslashes s % 2 = 1 → (classify s b n).1 = true := by
  intro s b n
  induction s, b, n using classify.induct with
  | case1 b n =>
    intro h
    simp [trailingBackslashes] at h
  | case2 c rest b n h1 ih =>
    intro h
    rw [trailingBackslashes_cons_ne c rest (by omega)] at h
    rw [classify.eq_def]
    simpa [h1] using ih h
  | case3 c rest b n h1 h2 =>
    intro h
    rw [classify.eq_def]
    simp [h1, h2]
  | case4 c rest b n h1 h2 h3 ih =>
    intro h
    have hc : c ≠ 92 := by
      simp only [Bool.or_eq_true, beq_iff_eq] at h3
      omega
    rw [trailingBackslashes_cons_ne c rest hc] at h
    rw [classify.eq_def]
    simpa [h1, h2, h3] using ih h
  | case5 c b n h1 h2 h3 h4 =>
    intro h
    rw [classify.eq_def]
    simp [h1, h2, h3, h4]
  | case6 c b n h1 h2 h3 h4 head rest2 ih =>
    intro h
    have hc : c = 92 := by simpa using h4
    subst hc
    rw [trailingBackslashes_cons_cons head rest2] at h
    rw [classify.eq_def]
    simpa [h1, h2, h3] using ih h
  | case7 c rest b n h1 h2 h3 h4 h5 ih =>
    intro h
    have hc : c ≠ 92 := by
      intro hc
      exact h4 (by simp [hc])
    rw [trailingBackslashes_cons_ne c rest hc] at h
    rw [classify.eq_def]
    simpa [h1, h2, h3, h4, h5] using ih h
  | case8 c rest b n h1 h2 h3 h4 h5 h6 h7 =>
    intro h
    rw [classify.eq_def]
    simp [h1, h2, h3, h4, h5, h6, h7]
  | case9 c rest b n h1 h2 h3 h4 h5 h6 h7 ih =>
    intro h
    have hc : c ≠ 92 := by
      intro hc
      exact h4 (by simp [hc])
    rw [trailingBackslashes_cons_ne c rest hc] at h
    rw [classify.eq_def]
    simpa [h1, h2, h3, h4, h5, h6, h7] using ih h
  | case10 c rest b n h1 h2 h3 h4 h5 h6 ih =>
    intro h
    have hc : c ≠ 92 := by
      intro hc
      exact h4 (by simp [hc])
    rw [trailingBackslashes_cons_ne c rest hc] at h
    rw [classify.eq_def]
    simpa [h1, h2, h3, h4, h5, h6] using ih h

/-- C4 counterexample: the string of two backslashes ends in a backslash
code point, yet the scan consumes the second backslash as protected, so the
string is brace-quoted, not backslash-escaped. -/
theorem claim4_counterexample :
    List.getLast? [92, 92] = some 92 ∧
    tclQuote [92, 92] = [123, 92, 92, 125] ∧
    tclQuote [92, 92] ≠ (List.map slashQuoteChar [92, 92]).flatten := by
  decide

/-- C4 (amended): for every string whose maximal run of trailing backslashes
has odd length (so the scan reaches the final backslash unconsumed), the
classification forces full backslash-escaping; in particular quoting the
five-character string a, space, b, c, backslash gives the seven-character
string a, backslash, space, b, c, backslash, backslash. -/
theorem claim4_theorem :
    (∀ s : List Nat, trailingBackslashes s % 2 = 1 →
      tclQuote s = (s.map slashQuoteChar).flatten) ∧
    tclQuote [97, 32, 98, 99, 92] = [97, 92, 32, 98, 99, 92, 92] := by
  constructor
  · intro s h
    have hne : s ≠ [] := by
      rintro rfl
      simp [trailingBackslashes] at h
    have hslash := classify_odd_trailing s false 0 h
    rcases hcl : classify s false 0 with ⟨slash, brace, count⟩
    rw [hcl] at hslash
    simp only at hslash
    subst hslash
    simp [tclQuote, hne, hcl]
  · decide

/-- C4 witness: the one-character string of a single backslash is
backslash-escaped. -/
theorem claim4_witness :
    trailingBackslashes [92] % 2 = 1 ∧
    tclQuote [92] = (List.map slashQuoteChar [92]).flatten :=
  ⟨by decide, claim4_theorem.1 [92] (by decide)⟩

theorem classify_braceScan : ∀ (s : List Nat) (b : Bool) (n : Nat),
    (classify s b n).1 = false → braceScan s n = some (classify s b n).2.2 := by
  intro s b n
  induction s, b, n using classify.induct with
  | case1 b n =>
    intro _
    simp [classify, braceScan]
  | case2 c rest b n h1 ih =>
    intro h
    have he : classify (c :: rest) b n = classify rest b n := by
      rw [classify.eq_def]
      simp [h1]
    have hb : braceScan (c :: rest) n = braceScan rest n := by
      rw [braceScan.eq_def]
      have h92 : (c == 92) = false := by simp only [beq_eq_false_iff_ne]; omega
      have h123 : (c == 123) = false := by simp only [beq_eq_false_iff_ne]; omega
      have h125 : (c == 125) = false := by simp only [beq_eq_false_iff_ne]; omega
      simp [h92, h123, h125]
    rw [he] at h
    rw [he, hb]
    exact ih h
  | case3 c rest b n h1 h2 =>
    intro h
    exfalso
    rw [classify.eq_def] at h
    simp [h1, h2] at h
  | case4 c rest b n h1 h2 h3 ih =>
    intro h
    have hval : c = 32 ∨ c = 34 := by
      simp only [Bool.or_eq_true, beq_iff_eq] at h3
      exact h3
    have he : classify (c :: rest) b n = classify rest true n := by
      rw [classify.eq_def]
      simp [h1, h2, h3]
    have hb : braceScan (c :: rest) n = braceScan rest n := by
      rw [braceScan.eq_def]
      have h92 : (c == 92) = false := by simp only [beq_eq_false_iff_ne]; omega
      have h123 : (c == 123) = false := by simp only [beq_eq_false_iff_ne]; omega
      have h125 : (c == 125) = false := by simp only [beq_eq_false_iff_ne]; omega
      simp [h92, h123, h125]
    rw [he] at h
    rw [he, hb]
    exact ih h
  | case5 c b n h1 h2 h3 h4 =>
    intro h
    exfalso
    rw [classify.eq_def] at h
    simp [h1, h2, h3, h4] at h
  | case6 c b n h1 h2 h3 h4 head rest2 ih =>
    intro h
    have he : classify (c :: head :: rest2) b n = classify rest2 true n := by
      rw [classify.eq_def]
      simp [h1, h2, h3, h4]
    have hb : braceScan (c :: head :: rest2) n = braceScan rest2 n := by
      rw [braceScan.eq_def]
      simp [h4]
    rw [he] at h
    rw [he, hb]
    exact ih h
  | case7 c rest b n h1 h2 h3 h4 h5 ih =>
    intro h
    have he : classify (c :: rest) b n = classify rest true (n + 1) := by
      rw [classify.eq_def]
      simp [h1, h2, h3, h4, h5]
    have hb : braceScan (c :: rest) n = braceScan rest (n + 1) := by
      rw [braceScan.eq_def]
      have h92 : (c == 92) = false := by simpa using h4
      simp [h92, h5]
    rw [he] at h
    rw [he, hb]
    exact ih h
  | case8 c rest b n h1 h2 h3 h4 h5 h6 h7 =>
    intro h
    exfalso
    rw [classify.eq_def] at h
    simp [h1, h2, h3, h4, h5, h6, h7] at h
  | case9 c rest b n h1 h2 h3 h4 h5 h6 h7 ih =>
    intro h
    have he : classify (c :: rest) b n = classify rest true (n - 1) := by
      rw [classify.eq_def]
      simp [h1, h2, h3, h4, h5, h6, h7]
    have hb : braceScan (c :: rest) n = braceScan rest (n - 1) := by
      rw [braceScan.eq_def]
      have h92 : (c == 92) = false := by simpa using h4
      have h123 : (c == 123) = false := by simpa using h5
      simp [h92, h123, h6, h7]
    rw [he] at h
    rw [he, hb]
    exact ih h
  | case10 c rest b n h1 h2 h3 h4 h5 h6 ih =>
    intro h
    have he : classify (c :: rest) b n = classify rest b n := by
      rw [classify.eq_def]
      simp [h1, h2, h3, h4, h5, h6]
    have hb : braceScan (c :: rest) n = braceScan rest n := by
      rw [braceScan.eq_def]
      have h92 : (c == 92) = false := by simpa using h4
      have h123 : (c == 123) = false := by simpa using h5
      have h125 : (c == 125) = false := by simpa using h6
      simp [h92, h123, h125]
    rw [he] at h
    rw [he, hb]
    exact ih h

/-- C5: for every string in which the braces not protected by a preceding
backslash are unbalanced (a close brace at running depth zero, or nonzero
depth at end of scan), the quoter applies full backslash-escaping; in
particular the five braces of open-open-open-close-close are each escaped
with a backslash. -/
theorem claim5_theorem :
    (∀ s : List Nat, braceScan s 0 ≠ some 0 →
      tclQuote s = (s.map slashQuoteChar).flatten) ∧
    tclQuote [123, 123, 123, 125, 125] =
      [92, 123, 92, 123, 92, 123, 92, 125, 92, 125] := by
  constructor
  · intro s h
    have hne : s ≠ [] := by
      rintro rfl
      simp [braceScan] at h
    rcases hcl : classify s false 0 with ⟨slash, brace, count⟩
    cases slash with
    | true => simp [tclQuote, hne, hcl]
    | false =>
      have hs : (classify s false 0).1 = false := by rw [hcl]
      have hbs := classify_braceScan s false 0 hs
      rw [hcl] at hbs
      have hc0 : count ≠ 0 := by
        intro h0
        apply h
        rw [hbs, h0]
      have hcount : (count == 0) = false := by simpa using hc0
      simp [tclQuote, hne, hcl, hcount]
  · decide

/-- C5 witness: the string of three open braces and two close braces has
unbalanced unprotected braces and is fully backslash-escaped. -/
theorem claim5_witness :
    braceScan [123, 123, 123, 125, 125] 0 ≠ some 0 ∧
    tclQuote [123, 123, 123, 125, 125] =
      (List.map slashQuoteChar [123, 123, 123, 125, 125]).flatten :=
  ⟨by decide, claim5_theorem.1 [123, 123, 123, 125, 125] (by decide)⟩

theorem slashQuoteChar_ne_nil (c : Nat) : slashQuoteChar c ≠ [] := by
  unfold slashQuoteChar
  repeat' split
  all_goals simp

theorem tclQuote_ne_nil (s : List Nat) : tclQuote s ≠ [] := by
  by_cases hne : s = []
  · subst hne
    decide
  · obtain ⟨c, rest, rfl⟩ := List.exists_cons_of_ne_nil hne
    rcases hcl : classify (c :: rest) false 0 with ⟨slash, brace, count⟩
    simp only [tclQuote, hcl, reduceCtorEq, if_false]
    split
    · cases hsq : slashQuoteChar c with
      | nil => exact absurd hsq (slashQuoteChar_ne_nil c)
      | cons x xs => simp [hsq]
    · split
      · simp
      · simp

theorem encode_ne_nil (t : TclListable) : encodeTclListElement t ≠ [] := by
  cases t with
  | str s => simpa [encodeTclListElement] using tclQuote_ne_nil s
  | num first rest => simp [encodeTclListElement]
  | bool b => cases b <;> simp [encodeTclListElement]
  | list l => simpa [encodeTclListElement] using tclQuote_ne_nil (tclListAux [] l)

/-- Spec-side join rule: element strings joined "with a single ASCII space
(0x20) separator; no leading/trailing separator; no separator when the
sequence has 0 or 1 elements". -/
def joinSpaces : List (List Nat) → List Nat
  | [] => []
  | [x] => x
  | x :: y :: rest => x ++ 32 :: joinSpaces (y :: rest)

theorem joinSpaces_eq : ∀ (rest : List (List Nat)) (x : List Nat),
    joinSpaces (x :: rest) = x ++ (rest.map (fun y => 32 :: y)).flatten := by
  intro rest
  induction rest with
  | nil =>
    intro x
    simp [joinSpaces]
  | cons y r ih =>
    intro x
    rw [joinSpaces, ih y]
    simp

theorem tclListAux_acc : ∀ (l : List TclListable) (acc : List Nat), acc ≠ [] →
    tclListAux acc l = acc ++ (l.map (fun t => 32 :: encodeTclListElement t)).flatten := by
  intro l
  induction l with
  | nil =>
    intro acc h
    simp [tclListAux]
  | cons t rest ih =>
    intro acc h
    simp only [tclListAux]
    rw [if_neg h]
    have hnew : acc ++ [32] ++ encodeTclListElement t ≠ [] := by simp
    rw [ih (acc ++ [32] ++ encodeTclListElement t) hnew]
    simp

theorem tclList_eq_joinSpaces (l : List TclListable) :
    tclList l = joinSpaces (l.map encodeTclListElement) := by
  cases l with
  | nil => simp [tclList, tclListAux, joinSpaces]
  | cons t rest =>
    have h1 : tclList (t :: rest) = tclListAux (encodeTclListElement t) rest := by
      simp [tclList, tclListAux]
    rw [h1, tclListAux_acc rest (encodeTclListElement t) (encode_ne_nil t),
      List.map_cons, joinSpaces_eq, List.map_map]
    rfl

/-- C2 counterexample: a nested single-element list of plain text is emitted
exactly as its recursive encoding with no quoting applied, so a list-derived
element is not always quoted even though its content alone needed none. -/
theorem claim2_counterexample :
    encodeTclListElement (.list [.str [97, 98, 99]]) = [97, 98, 99] ∧
    tclList [.str [97, 98, 99]] = [97, 98, 99] := by
  constructor
  · simp only [encodeTclListElement, tclListAux]
    decide
  · simp only [tclList, tclListAux, encodeTclListElement]
    decide

/-- C2 (amended): the element emitted for a nested-list value is always the
Element Quoter applied to the recursive encoding; the quoter may return that
encoding unchanged when its content alone requires no quoting. -/
theorem claim2_theorem (l : List TclListable) :
    encodeTclListElement (.list l) = tclQuote (tclList l) := by
  simp [encodeTclListElement, tclList]

/-- C8: the encoder returns the per-element encodings joined with a single
ASCII space, with no leading or trailing separator; the empty sequence
yields the empty string. -/
theorem claim8_theorem :
    tclList [] = [] ∧
    ∀ l : List TclListable, tclList l = joinSpaces (l.map encodeTclListElement) :=
  ⟨by simp [tclList, tclListAux], tclList_eq_joinSpaces⟩

/-- C10: every element string produced by the encoder is non-empty, so the
accumulator's append-a-space-only-when-nonempty rule coincides exactly with
joining the element strings by single spaces, and no element vanishes. -/
theorem claim10_theorem :
    (∀ t : TclListable, encodeTclListElement t ≠ []) ∧
    ∀ l : List TclListable, tclList l = joinSpaces (l.map encodeTclListElement) :=
  ⟨encode_ne_nil, tclList_eq_joinSpaces⟩

end Tcl
